import Mathlib

/-!
# Verification of the long-form script / chunked audio pipeline

A shallow embedding of the algorithmic core of the repository:

* `FishAudioService` (text chunking, long-audio chunk loop, progress events,
  path decision between single-call and chunked synthesis);
* `ScriptWriterService` (chapter-count policy, chapter content validation,
  chapter generation retry loop, chapter statistics);
* the job-tracking logic of the HTTP layer (`sendProgress` progress updates,
  the periodic stale-job cleanup sweep).

Strings are modelled as `List Char`.  JavaScript numbers are modelled as
`ℕ`/`ℤ`/`ℚ` at the points where the source only ever produces exact values
(integer counts, millisecond timestamps, exact halves).
-/

namespace FullAI

/-! ## Character classes and basic string operations -/
/-- Whitespace, as matched by `\s` in `split(/\s+/)` and removed by
`String.prototype.trim` (restricted to the ASCII whitespace characters,
which are the only ones relevant to the proofs; `split` and `trim` use the
same class, which is all that matters below). -/
def isWs (c : Char) : Bool :=
  c = ' ' || c = '\t' || c = '\n' || c = '\r'

/-- Negation of `isWs`, the class `\S`. -/
def notWs (c : Char) : Bool := !isWs c

/-- Terminal punctuation: the class `[\.!?]` of the sentence regex
`/[^\.!?]+[\.!?]+/g` in `splitTextIntoChunks`. -/
def isTerm (c : Char) : Bool :=
  c = '.' || c = '!' || c = '?'

/-- The class `[^\.!?]`. -/
def notTerm (c : Char) : Bool := !isTerm c

/-- Remove leading whitespace. -/
def ltrim (s : List Char) : List Char := s.dropWhile isWs

/-- Remove trailing whitespace. -/
def rtrim (s : List Char) : List Char := (s.reverse.dropWhile isWs).reverse

/-- JavaScript `s.trim()`: remove leading and trailing whitespace. -/
def trimChars (s : List Char) : List Char := rtrim (ltrim s)

/-- The maximal runs of non-whitespace characters of `s`, in order.
`acc` accumulates the current run in reverse. -/
def fieldsAux : List Char → List Char → List (List Char)
  | [], acc => if acc = [] then [] else [acc.reverse]
  | c :: s, acc =>
    if isWs c then
      (if acc = [] then fieldsAux s [] else acc.reverse :: fieldsAux s [])
    else fieldsAux s (c :: acc)

/-- The maximal non-whitespace runs ("words") of a string. -/
def fields (s : List Char) : List (List Char) := fieldsAux s []

/-- JavaScript `s.split(/\s+/)`: the maximal non-whitespace runs, together
with a leading empty string when the string starts with whitespace, a
trailing empty string when it ends with whitespace, and `[""]` for the
empty string (the separator regex never matches the empty string, so the
whole string is returned unsplit). -/
def splitWs (s : List Char) : List (List Char) :=
  if s = [] then [[]]
  else
    (if isWs (s.headD 'x') then [([] : List Char)] else [])
      ++ fields s
      ++ (if isWs (s.getLastD 'x') then [([] : List Char)] else [])

/-- `sub.isPrefixOf s` as a boolean, spelled out. -/
def prefixOf : List Char → List Char → Bool
  | [], _ => true
  | _ :: _, [] => false
  | b :: t, a :: s => b = a && prefixOf t s

/-- JavaScript `s.includes(sub)`: `sub` occurs contiguously in `s`. -/
def hasSub : List Char → List Char → Bool
  | [], sub => prefixOf sub []
  | c :: t, sub => prefixOf sub (c :: t) || hasSub t sub

/-- `Math.round (num / den)` for non-negative operands: round half up. -/
def jsRound (num den : ℕ) : ℕ := (2 * num + den) / (2 * den)

/-! ## Chapter-count policy (`buildPreviewPrompt` in scriptWriter.js) -/
/-- `Math.max(3, Math.min(8, Math.ceil(duration / 2)))`, the number of
chapters requested by `buildPreviewPrompt`.  `duration` is an arbitrary
validated JavaScript number, modelled as a rational. -/
def numChapters (duration : ℚ) : ℤ :=
  max 3 (min 8 ⌈duration / 2⌉)

/-- `clamp(x, lo, hi)` as the specification words it. -/
def clampSpec (x lo hi : ℤ) : ℤ := min hi (max lo x)

/-! ## Stale-job cleanup sweep (server.js `setInterval`) -/
/-- A tracked job, reduced to the fields the cleanup sweep reads:
its id and its `lastUpdate` timestamp in milliseconds. -/
structure JobEntry where
  id : ℕ
  lastUpdate : ℤ
deriving DecidableEq

/-- `30 * 60 * 1000`, the `maxAge` of the cleanup sweep. -/
def maxAgeMs : ℤ := 30 * 60 * 1000

/-- One run of the cleanup sweep over `activeJobs`: every job whose age
`now - job.lastUpdate` exceeds `maxAge` is deleted from the map; the rest
are kept. -/
def cleanupJobs (now : ℤ) (jobs : List JobEntry) : List JobEntry :=
  jobs.filter (fun j => !(decide (now - j.lastUpdate > maxAgeMs)))

/-! ## Progress events of the audio pipeline

`generateAudioFromScriptWithProgress` emits a `start` event, then either the
single-chunk events (`single_chunk` at 50, `complete` at 100) or, via
`generateLongAudio`, a `chunks_created` event, a `chunk_start`/`chunk_complete`
pair per chunk, `combining` at 90 and `complete` at 100. -/
/-- The event types sent through `onProgress`. -/
inductive EvType where
  | start
  | chunksCreated
  | singleChunk
  | chunkStart
  | chunkComplete
  | combining
  | complete
deriving DecidableEq

/-- A progress event, reduced to the fields the claims are about: its type,
the chunk index it refers to (when any) and its `progress` field (absent on
`start` and `chunks_created`). -/
structure Ev where
  kind : EvType
  chunkIndex : Option ℕ
  progress : Option ℕ
deriving DecidableEq

/-- The events emitted by the chunk loop of `generateLongAudio` for chunk
indices `i, i+1, …` while `remaining` iterations are left, out of `n` chunks
total: `chunk_start` carries `Math.round((i / n) * 100)` and
`chunk_complete` carries `Math.round(((i + 1) / n) * 90)`. -/
def chunkEventsFrom (n : ℕ) : ℕ → ℕ → List Ev
  | 0, _ => []
  | rem + 1, i =>
    ⟨.chunkStart, some i, some (jsRound (i * 100) n)⟩ ::
    ⟨.chunkComplete, some i, some (jsRound ((i + 1) * 90) n)⟩ ::
    chunkEventsFrom n rem (i + 1)

/-- All events emitted by a successful `generateLongAudio` run over `n`
chunks, in order. -/
def longAudioEvents (n : ℕ) : List Ev :=
  ⟨.chunksCreated, none, none⟩ ::
    chunkEventsFrom n n 0 ++
      [⟨.combining, none, some 90⟩, ⟨.complete, none, some 100⟩]

/-- All events of a successful multi-chunk
`generateAudioFromScriptWithProgress` run (`start`, then the long-audio
events). -/
def runEventsMulti (n : ℕ) : List Ev :=
  ⟨.start, none, none⟩ :: longAudioEvents n

/-- All events of a successful single-chunk
`generateAudioFromScriptWithProgress` run. -/
def singleRunEvents : List Ev :=
  [⟨.start, none, none⟩, ⟨.singleChunk, some 0, some 50⟩,
   ⟨.complete, none, some 100⟩]

/-- `sendProgress` in server.js: `jobData.progress = data.progress ||
jobData.progress` — an event with no `progress` field (or with the falsy
value `0`) leaves the stored progress unchanged. -/
def applyProgress (old : ℕ) (e : Ev) : ℕ :=
  match e.progress with
  | none => old
  | some p => if p = 0 then old else p

/-- The sequence of stored `jobData.progress` values: the initial `0` the
job is created with, followed by the value after each `sendProgress` call. -/
def progressTrace (events : List Ev) : List ℕ :=
  events.scanl applyProgress 0

/-- A list of naturals is non-decreasing. -/
def nondecreasingB : List ℕ → Bool
  | [] => true
  | [_] => true
  | a :: b :: t => decide (a ≤ b) && nondecreasingB (b :: t)

/-! ## Text chunking (`splitTextIntoChunks` in the FishAudio service) -/
/-- The global matches of the sentence regex `/[^\.!?]+[\.!?]+/g`, scanning
left to right: each match is a maximal nonempty run of non-terminal
characters followed by a maximal nonempty run of terminal punctuation.
Characters that cannot take part in a match (terminal punctuation before
any non-terminal character, and a trailing run with no terminator) are
skipped.  `fuel` only forces termination; `sentencesRaw` supplies enough of
it to never run out. -/
def sentencesF : ℕ → List Char → List (List Char)
  | 0, _ => []
  | fuel + 1, s =>
    match s.dropWhile isTerm with
    | [] => []
    | c :: s1 =>
      let a := c :: s1.takeWhile notTerm
      match s1.dropWhile notTerm with
      | [] => []
      | d :: r2 =>
        (a ++ (d :: r2).takeWhile isTerm) :: sentencesF fuel (r2.dropWhile isTerm)

/-- `text.match(/[^\.!?]+[\.!?]+/g)` (possibly the empty list). -/
def sentencesRaw (s : List Char) : List (List Char) := sentencesF (s.length + 1) s

/-- `text.match(/[^\.!?]+[\.!?]+/g) || [text]`: when the regex finds no
match at all, the whole text is used as the single "sentence". -/
def sentences (s : List Char) : List (List Char) :=
  match sentencesRaw s with
  | [] => [s]
  | l => l

/-- One iteration of the sentence loop of `splitTextIntoChunks`, mapping
the state `(chunks, currentChunk)` through one sentence.  When adding the
sentence would overflow `chunkSize` and the current chunk is nonempty, the
trimmed current chunk is closed and the next chunk is seeded with the last
`Math.floor(overlapSize / 10)` words of the closed chunk
(`words.slice(-k)`, which is the whole array when `k = 0`), joined with
single spaces, followed by a space and the sentence.  Otherwise the
sentence is appended to the current chunk. -/
def chunkStep (chunkSize overlapSize : ℕ) (st : List (List Char) × List Char)
    (sentence : List Char) : List (List Char) × List Char :=
  if chunkSize < st.2.length + sentence.length ∧ 0 < st.2.length then
    let words := splitWs st.2
    let overlapWords :=
      if overlapSize / 10 = 0 then words
      else words.drop (words.length - overlapSize / 10)
    (st.1 ++ [trimChars st.2], List.intercalate [' '] overlapWords ++ ' ' :: sentence)
  else (st.1, st.2 ++ sentence)

/-- `splitTextIntoChunks(text, chunkSize, overlapSize)` (the source default
`overlapSize = 200` is passed explicitly at every use): fold the
sentences through `chunkStep` starting from no chunks and an empty current
chunk, then push the trimmed final chunk if it is nonempty. -/
def splitTextIntoChunks (text : List Char) (chunkSize : ℕ)
    (overlapSize : ℕ) : List (List Char) :=
  let st := (sentences text).foldl (chunkStep chunkSize overlapSize) ([], [])
  if trimChars st.2 = [] then st.1 else st.1 ++ [trimChars st.2]

/-! ## Chapter content validation (`validateChapterContent` in scriptWriter.js) -/
/-- Result of `validateChapterContent`: the invalid branches carry only a
reason, the valid branch carries only the word counts. -/
structure VcResult where
  isValid : Bool
  reason : Option (List Char)
  wordCount : Option ℕ
  expectedWordCount : Option ℕ
deriving DecidableEq

/-- The interpolated reason template of the minimum word-count rule. -/
def tooShortMsg (wordCount expectedWordCount minWordCount : ℕ) : List Char :=
  "Too short: ".data ++ (toString wordCount).data ++ " words (expected ~".data
    ++ (toString expectedWordCount).data ++ ", minimum ".data
    ++ (toString minWordCount).data ++ ")".data

/-- The interpolated reason template of the maximum word-count rule. -/
def tooLongMsg (wordCount expectedWordCount maxWordCount : ℕ) : List Char :=
  "Too long: ".data ++ (toString wordCount).data ++ " words (expected ~".data
    ++ (toString expectedWordCount).data ++ ", maximum ".data
    ++ (toString maxWordCount).data ++ ")".data

/-- The reason of the 100-character rule. -/
def tooShort100Msg : List Char := "Content too short (less than 100 characters)".data

/-- The reason of the placeholder rule. -/
def placeholderMsg : List Char :=
  "Content contains placeholder text or incomplete sections".data

/-- The reason of the title-keyword rule. -/
def offTopicMsg : List Char := "Content does not seem related to chapter topic".data

/-- `validateChapterContent(content, expectedDuration, chapter)`: the word
count is `content.split(/\s+/).length`; `expectedWordCount * 0.5` is
written `/ 2` (exact, since `expectedWordCount` is a multiple of 200) and
`* 2.0` as `* 2`.  `expectedDuration` is the integer
`Math.ceil(duration / chapters.length)` at every call site.  The rules are
tested in source order, first failing rule wins. -/
def validateChapterContent (content : List Char) (expectedDuration : ℕ)
    (chapterTitle : List Char) : VcResult :=
  let wordCount := (splitWs content).length
  let expectedWordCount := expectedDuration * 200
  let minWordCount := expectedWordCount / 2
  let maxWordCount := expectedWordCount * 2
  if wordCount < minWordCount then
    ⟨false, some (tooShortMsg wordCount expectedWordCount minWordCount), none, none⟩
  else if maxWordCount < wordCount then
    ⟨false, some (tooLongMsg wordCount expectedWordCount maxWordCount), none, none⟩
  else if (trimChars content).length < 100 then
    ⟨false, some tooShort100Msg, none, none⟩
  else if content.contains '[' || content.contains ']' || hasSub content "TODO".data then
    ⟨false, some placeholderMsg, none, none⟩
  else
    let chapterKeywords := splitWs (chapterTitle.map Char.toLower)
    let contentLower := content.map Char.toLower
    let keywordMatches :=
      (chapterKeywords.filter (fun kw => decide (3 < kw.length) && hasSub contentLower kw)).length
    if keywordMatches = 0 ∧ 1 < chapterKeywords.length then
      ⟨false, some offTopicMsg, none, none⟩
    else
      ⟨true, none, some wordCount, some expectedWordCount⟩

/-- `n` copies of the word `w`, separated by single spaces. -/
def repWords : ℕ → List Char → List Char
  | 0, _ => []
  | 1, w => w
  | n + 2, w => w ++ ' ' :: repWords (n + 1) w

/-- A two-word chapter title used in the concrete validation scenarios. -/
def sampleTitle : List Char := "Meditation Basics".data

/-- The 400-word generated text of the "too short" scenario. -/
def cShort : List Char := repWords 400 ['a']

/-- The 2200-word generated text of the "too long" scenario. -/
def cLong : List Char := repWords 2200 ['a']

/-- A 1000-word generated text containing the literal substring `[pause]`. -/
def cPause : List Char := "[pause]".data ++ ' ' :: repWords 999 ['a']

/-- A 1000-word generated text mentioning the chapter-title keyword
`meditation`. -/
def cTopic : List Char := "meditation".data ++ ' ' :: repWords 999 ['a']

/-- A 400-word text that also contains `[pause]` (rule-order scenario). -/
def cShortPause : List Char := "[pause]".data ++ ' ' :: repWords 399 ['a']

/-! ## Chapter generation retry (`generateChapterWithRetry`) -/
/-- Outcome of the retry loop: `result = none` models the `undefined`
fall-through when the loop ends without returning (impossible for
`maxRetries ≥ 1`); `waits` lists the `setTimeout` delays in milliseconds in
order; `attemptsMade` counts the iterations that ran. -/
structure RetryOutcome where
  result : Option (Except (List Char) (List Char))
  waits : List ℕ
  attemptsMade : ℕ

/-- The `for (let attempt = 1; attempt <= maxRetries; attempt++)` loop of
`generateChapterWithRetry`, iterating over the remaining attempt numbers.
`res a` is the outcome of the external generation call of attempt `a`
(`.error` models a thrown call); `valid` is
`validateChapterContent(...).isValid` of the produced text.  A valid
attempt returns its text.  An invalid attempt at `attempt = maxRetries`
returns its text anyway; otherwise the loop waits `1000 * attempt` ms and
retries.  A thrown attempt at `attempt = maxRetries` throws the final
error; otherwise the loop waits `1000 * 2 ^ (attempt - 1)` ms and retries.
Falling off the loop end returns `undefined` (`result = none`; impossible
for `maxRetries ≥ 1`). -/
def retryGo (res : ℕ → Except (List Char) (List Char)) (valid : List Char → Bool)
    (maxRetries : ℕ) : List ℕ → List ℕ → ℕ → RetryOutcome
  | [], waits, made => ⟨none, waits, made⟩
  | attempt :: rest, waits, made =>
    match res attempt with
    | .ok content =>
      if valid content then ⟨some (.ok content), waits, made + 1⟩
      else if attempt = maxRetries then ⟨some (.ok content), waits, made + 1⟩
      else retryGo res valid maxRetries rest (waits ++ [1000 * attempt]) (made + 1)
    | .error msg =>
      if attempt = maxRetries then
        ⟨some (.error ("Failed to generate chapter after retries: ".data ++ msg)),
         waits, made + 1⟩
      else retryGo res valid maxRetries rest
        (waits ++ [1000 * 2 ^ (attempt - 1)]) (made + 1)

/-- `generateChapterWithRetry(previewData, chapter, options, maxRetries)`:
the loop runs attempts `1 … maxRetries`; every call site uses the default
`maxRetries = 3`. -/
def generateChapterWithRetry (res : ℕ → Except (List Char) (List Char))
    (valid : List Char → Bool) (maxRetries : ℕ) : RetryOutcome :=
  retryGo res valid maxRetries (List.range' 1 maxRetries) [] 0

/-- The chapter statistics entry pushed by `generateLongScriptFromPreview`
for chapter index `i` (0-based): the returned content is re-validated and
`validation.isValid` is recorded; the word counts use
`validation.wordCount || fallback` (the falsy `undefined` and `0` fall back
to recomputing). -/
structure ChapterStat where
  chapterNumber : ℕ
  wordCountStat : ℕ
  expectedWordCountStat : ℕ
  isValid : Bool
deriving DecidableEq

/-- See `ChapterStat`. -/
def chapterStatOf (i : ℕ) (content : List Char) (chapterDuration : ℕ)
    (chapterTitle : List Char) : ChapterStat :=
  let validation := validateChapterContent content chapterDuration chapterTitle
  ⟨i + 1,
   match validation.wordCount with
   | some w => if w = 0 then (splitWs content).length else w
   | none => (splitWs content).length,
   match validation.expectedWordCount with
   | some e => if e = 0 then chapterDuration * 200 else e
   | none => chapterDuration * 200,
   validation.isValid⟩

/-! ## The long-audio chunk loop and its catch block (`generateLongAudio`) -/
/-- The errors a modelled `generateLongAudio` run surfaces. -/
inductive JsError where
  | synthesisError (chunkIndex : ℕ)
  | referenceErrorTempAudioFiles
deriving DecidableEq

/-- The chunk loop of `generateLongAudio`: synthesize chunk `i`, write its
temp file, append it to `tempAudioFiles`, continue; a failed synthesis
aborts the loop.  Returns the loop outcome together with the temp chunk
files written so far. -/
def longAudioLoop (synthOk : ℕ → Bool) : List ℕ → List ℕ → Except ℕ Unit × List ℕ
  | [], temp => (.ok (), temp)
  | i :: rest, temp =>
    if synthOk i then longAudioLoop synthOk rest (temp ++ [i])
    else (.error i, temp)

/-- Result of a `generateLongAudio` run: the returned chunk count, or the
error that propagated. -/
inductive LongAudioResult where
  | ok (chunkCount : ℕ)
  | err (e : JsError)
deriving DecidableEq

/-- Filesystem-visible outcome of a `generateLongAudio` run over `n`
chunks: the propagated result, the per-chunk temp files still on disk
afterwards, and whether the combined output file was written. -/
structure LongAudioOutcome where
  result : LongAudioResult
  tempFilesOnDisk : List ℕ
  outputWritten : Bool
deriving DecidableEq

/-- `generateLongAudio` over `n` chunks with synthesis oracle `synthOk`.
On success the chunks are combined into the output file, the temp files are
removed and the chunk count is returned.  On a synthesis failure the
`catch` block evaluates `for (const tempFile of tempAudioFiles)` — but
`tempAudioFiles` was declared with `const` *inside* the `try` block, so the
identifier is not in scope in the `catch` block; per JavaScript block
scoping, evaluating the loop header throws
`ReferenceError: tempAudioFiles is not defined` before any cleanup runs,
and that `ReferenceError` (not the synthesis error) propagates.  The temp
chunk files written so far stay on disk and no output file is written. -/
def generateLongAudioRun (n : ℕ) (synthOk : ℕ → Bool) : LongAudioOutcome :=
  match longAudioLoop synthOk (List.range n) [] with
  | (.ok _, _) => ⟨.ok n, [], true⟩
  | (.error _, temp) => ⟨.err .referenceErrorTempAudioFiles, temp, false⟩

/-! ## Path decision (`generateAudioFromScriptWithProgress`) -/
/-- Shape of a `generateAudioFromScriptWithProgress` run. -/
inductive AudioPath where
  /-- The `Script file is empty` error, thrown before the path decision
  when the script trims to nothing. -/
  | emptyScriptError
  /-- A synthesis run: whether `splitTextIntoChunks` was invoked
  (the multi-chunk path, taken when `scriptContent.length > chunkSize`)
  and the number of synthesis calls made (1 on the single-call path). -/
  | run (usedSplitter : Bool) (chunkCount : ℕ)
deriving DecidableEq

/-- The observable path taken by `generateAudioFromScriptWithProgress`. -/
def audioRunPath (script : List Char) (chunkSize : ℕ) : AudioPath :=
  if trimChars script = [] then .emptyScriptError
  else if chunkSize < script.length then
    .run true (splitTextIntoChunks script chunkSize 200).length
  else .run false 1

example : splitWs " a bc ".data = [[], ['a'], ['b', 'c'], []] := by decide

example : splitWs "".data = [[]] := by decide

example : trimChars "  ab ".data = ['a', 'b'] := by decide

example : hasSub "hello world".data "lo w".data = true := by decide

example : jsRound 1000 11 = 91 := by decide

/-! ## Helper lemmas about the event lists -/
theorem chunkEventsFrom_length (n : ℕ) :
    ∀ rem i, (chunkEventsFrom n rem i).length = 2 * rem := by
  intro rem
  induction rem with
  | zero => intro i; rfl
  | succ r ih =>
    intro i
    simp only [chunkEventsFrom, List.length_cons, ih]
    omega

theorem chunkEventsFrom_getElem (n : ℕ) :
    ∀ rem k i, k < rem →
      (chunkEventsFrom n rem i)[2 * k]? =
        some ⟨.chunkStart, some (i + k), some (jsRound ((i + k) * 100) n)⟩ ∧
      (chunkEventsFrom n rem i)[2 * k + 1]? =
        some ⟨.chunkComplete, some (i + k), some (jsRound ((i + k + 1) * 90) n)⟩ := by
  intro rem
  induction rem with
  | zero => intro k i h; omega
  | succ r ih =>
    intro k i hk
    cases k with
    | zero => simp [chunkEventsFrom]
    | succ k' =>
      have h := ih k' (i + 1) (by omega)
      have e1 : i + 1 + k' = i + (k' + 1) := by omega
      rw [e1] at h
      have e2 : 2 * (k' + 1) = 2 * k' + 1 + 1 := by omega
      rw [e2]
      simpa [chunkEventsFrom, List.getElem?_cons_succ] using h

/-! ## Claim theorems: chapter-count policy, cleanup sweep, progress events -/
/-- C7: for every duration, the chapter count computed by
`buildPreviewPrompt` equals `clamp(ceil(duration / 2), 3, 8)`; durations
1, 2, 4, 10 and 20 give 3, 3, 3, 5 and 8 chapters. -/
theorem numChapters_is_clamped_halved_duration :
    (∀ d : ℚ, numChapters d = clampSpec ⌈d / 2⌉ 3 8) ∧
    numChapters 1 = 3 ∧ numChapters 2 = 3 ∧ numChapters 4 = 3 ∧
    numChapters 10 = 5 ∧ numChapters 20 = 8 := by
  have h1 : (⌈(1 : ℚ) / 2⌉ : ℤ) = 1 := by rw [Int.ceil_eq_iff]; norm_num
  have h2 : (⌈(2 : ℚ) / 2⌉ : ℤ) = 1 := by rw [Int.ceil_eq_iff]; norm_num
  have h4 : (⌈(4 : ℚ) / 2⌉ : ℤ) = 2 := by rw [Int.ceil_eq_iff]; norm_num
  have h10 : (⌈(10 : ℚ) / 2⌉ : ℤ) = 5 := by rw [Int.ceil_eq_iff]; norm_num
  have h20 : (⌈(20 : ℚ) / 2⌉ : ℤ) = 10 := by rw [Int.ceil_eq_iff]; norm_num
  refine ⟨fun d => ?_, ?_, ?_, ?_, ?_, ?_⟩
  · unfold numChapters clampSpec
    omega
  · unfold numChapters; rw [h1]; decide
  · unfold numChapters; rw [h2]; decide
  · unfold numChapters; rw [h4]; decide
  · unfold numChapters; rw [h10]; decide
  · unfold numChapters; rw [h20]; decide

/-- C9: the cleanup sweep keeps exactly the jobs whose `lastUpdate` is at
most 30 minutes old; a job last updated 31 minutes ago is removed, one last
updated 29 minutes ago persists. -/
theorem cleanupJobs_evicts_exactly_older_than_30min :
    (∀ (now : ℤ) (jobs : List JobEntry) (j : JobEntry),
      j ∈ cleanupJobs now jobs ↔ j ∈ jobs ∧ now - j.lastUpdate ≤ maxAgeMs) ∧
    cleanupJobs (31 * 60 * 1000) [⟨1, 0⟩] = [] ∧
    cleanupJobs (29 * 60 * 1000) [⟨1, 0⟩] = [⟨1, 0⟩] := by
  refine ⟨fun now jobs j => ?_, by decide, by decide⟩
  simp only [cleanupJobs, List.mem_filter, Bool.not_eq_eq_eq_not, Bool.not_true,
    decide_eq_false_iff_not, not_lt]

/-- C3 counterexample: in a 2-chunk run the `chunk_start` event of chunk 1
carries progress 50 (= `round(1/2 × 100)`), not `round(1/2 × 90)` = 45 as
the claim states. -/
theorem chunkStart_progress_is_100_scaled_not_90 :
    (longAudioEvents 2)[3]? = some ⟨.chunkStart, some 1, some 50⟩ ∧
    jsRound (1 * 90) 2 = 45 := by decide

/-- C3 (amended): in the multi-chunk path with `n` chunks, the
`chunk_start` event of chunk `i` carries `round(i/n × 100)` (not `× 90`),
the `chunk_complete` event carries `round((i+1)/n × 90)`, and right after
the last chunk's events a `combining` event with progress 90 is emitted. -/
theorem longAudioEvents_progress_values (n i : ℕ) (hi : i < n) :
    (longAudioEvents n)[1 + 2 * i]? =
      some ⟨.chunkStart, some i, some (jsRound (i * 100) n)⟩ ∧
    (longAudioEvents n)[2 + 2 * i]? =
      some ⟨.chunkComplete, some i, some (jsRound ((i + 1) * 90) n)⟩ ∧
    (longAudioEvents n)[1 + 2 * n]? = some ⟨.combining, none, some 90⟩ := by
  obtain ⟨h1, h2⟩ := chunkEventsFrom_getElem n n i 0 hi
  simp only [Nat.zero_add] at h1 h2
  unfold longAudioEvents
  have hlen : (chunkEventsFrom n n 0).length = 2 * n := chunkEventsFrom_length n n 0
  refine ⟨?_, ?_, ?_⟩
  · rw [show 1 + 2 * i = 2 * i + 1 by omega,
      List.getElem?_append_left (by simp only [List.length_cons, hlen]; omega),
      List.getElem?_cons_succ]
    exact h1
  · rw [show 2 + 2 * i = (2 * i + 1) + 1 by omega,
      List.getElem?_append_left (by simp only [List.length_cons, hlen]; omega),
      List.getElem?_cons_succ]
    exact h2
  · rw [show 1 + 2 * n = 2 * n + 1 by omega,
      List.getElem?_append_right (by simp only [List.length_cons, hlen]; omega)]
    simp only [List.length_cons, hlen, Nat.sub_self]
    rfl

/-- Witness for `longAudioEvents_progress_values` at `n = 3`, `i = 1`. -/
theorem longAudioEvents_progress_values_witness :
    (longAudioEvents 3)[1 + 2 * 1]? =
      some ⟨.chunkStart, some 1, some (jsRound (1 * 100) 3)⟩ ∧
    (longAudioEvents 3)[2 + 2 * 1]? =
      some ⟨.chunkComplete, some 1, some (jsRound ((1 + 1) * 90) 3)⟩ ∧
    (longAudioEvents 3)[1 + 2 * 3]? = some ⟨.combining, none, some 90⟩ :=
  longAudioEvents_progress_values 3 1 (by decide)

/-- C2 counterexample: in an 11-chunk run the stored progress goes from 91
(after `chunk_start` of chunk 10) down to 90 (after its `chunk_complete`),
so the stored progress of a non-error job is not monotone for every chunk
count. -/
theorem progressTrace_decreases_at_11_chunks :
    (progressTrace (runEventsMulti 11))[23]? = some 91 ∧
    (progressTrace (runEventsMulti 11))[24]? = some 90 ∧
    nondecreasingB (progressTrace (runEventsMulti 11)) = false := by decide

/-- C2 (amended): the stored job progress is monotonically non-decreasing
for every multi-chunk run of at most 10 chunks, and for the single-chunk
run; for 11 or more chunks it decreases (see
`progressTrace_decreases_at_11_chunks`). -/
theorem progressTrace_monotone_upto_10_chunks (n : ℕ) (hn : n ≤ 10) :
    nondecreasingB (progressTrace (runEventsMulti n)) = true ∧
    nondecreasingB (progressTrace singleRunEvents) = true := by
  constructor
  · interval_cases n <;> decide
  · decide

/-- Witness for `progressTrace_monotone_upto_10_chunks` at `n = 5`. -/
theorem progressTrace_monotone_upto_10_chunks_witness :
    nondecreasingB (progressTrace (runEventsMulti 5)) = true ∧
    nondecreasingB (progressTrace singleRunEvents) = true :=
  progressTrace_monotone_upto_10_chunks 5 (by decide)

example : sentencesRaw "A. B".data = ["A.".data] := by decide

example : sentencesRaw "..a..b".data = ["a..".data] := by decide

example : sentences "no punctuation".data = ["no punctuation".data] := by decide

example : splitTextIntoChunks "One. Two. Three.".data 6 200 =
    ["One.".data, "One.  Two.".data, "One. Two.  Three.".data] := by decide

example : splitTextIntoChunks " ".data 1 200 = [] := by decide

example : splitTextIntoChunks "A. B".data 10 200 = ["A.".data] := by decide

set_option maxRecDepth 20000 in
example : (splitWs (repWords 400 ['a'])).length = 400 := by decide

/-! Lemmas used to evaluate the word count of large generated texts without
deep kernel evaluation. -/
theorem fieldsAux_append_nonws (w : List Char) (hw : ∀ c ∈ w, notWs c = true) :
    ∀ s acc, fieldsAux (w ++ s) acc = fieldsAux s (w.reverse ++ acc) := by
  induction w with
  | nil => intro s acc; simp
  | cons c w' ih =>
    intro s acc
    have hc : isWs c = false := by
      have h := hw c (by simp)
      simpa [notWs] using h
    simp only [List.cons_append, fieldsAux, hc, Bool.false_eq_true, if_false, List.append_eq]
    rw [ih (fun d hd => hw d (by simp [hd])) s (c :: acc)]
    simp

theorem fieldsAux_ws_cons (s acc : List Char) (h : acc ≠ []) :
    fieldsAux (' ' :: s) acc = acc.reverse :: fieldsAux s [] := by
  simp only [fieldsAux, isWs]
  rw [if_pos (by decide), if_neg h]

theorem fields_all_nonws (w : List Char) (hw : ∀ c ∈ w, notWs c = true)
    (hne : w ≠ []) : fields w = [w] := by
  have h := fieldsAux_append_nonws w hw [] []
  simp only [List.append_nil] at h
  unfold fields
  rw [h]
  unfold fieldsAux
  rw [if_neg (by simpa using hne)]
  simp

theorem fields_repWords (w : List Char) (hw : ∀ c ∈ w, notWs c = true)
    (hne : w ≠ []) : ∀ n, fields (repWords (n + 1) w) = List.replicate (n + 1) w := by
  intro n
  induction n with
  | zero => simpa [repWords] using fields_all_nonws w hw hne
  | succ m ih =>
    have hstep : repWords (m + 1 + 1) w = w ++ ' ' :: repWords (m + 1) w := rfl
    rw [hstep]
    unfold fields
    have h := fieldsAux_append_nonws w hw (' ' :: repWords (m + 1) w) []
    simp only [List.append_nil] at h
    rw [h, fieldsAux_ws_cons _ _ (by simpa using hne)]
    unfold fields at ih
    rw [ih]
    simp [List.replicate_succ]

theorem fields_length_le_splitWs_length (s : List Char) :
    (fields s).length ≤ (splitWs s).length := by
  unfold splitWs
  split
  · rename_i hs
    subst hs
    simp [fields, fieldsAux]
  · simp only [List.length_append]
    omega

theorem splitWs_length_le_fields_add_two (s : List Char) :
    (splitWs s).length ≤ (fields s).length + 2 := by
  unfold splitWs
  split
  · rename_i hs
    subst hs
    simp [fields, fieldsAux]
  · simp only [List.length_append]
    split <;> split <;> simp only [List.length_cons, List.length_nil] <;> omega

theorem fields_word_space (v s : List Char) (hv : ∀ c ∈ v, notWs c = true)
    (hne : v ≠ []) : fields (v ++ ' ' :: s) = v :: fields s := by
  unfold fields
  have h := fieldsAux_append_nonws v hv (' ' :: s) []
  simp only [List.append_nil] at h
  rw [h, fieldsAux_ws_cons _ _ (by simpa using hne)]
  simp

theorem fieldsAux_two_mul_length_le (s : List Char) :
    ∀ acc, 2 * (fieldsAux s acc).length ≤ s.length + (if acc = [] then 1 else 2) := by
  induction s with
  | nil =>
    intro acc
    unfold fieldsAux
    split
    · simp
    · simp
  | cons c s' ih =>
    intro acc
    unfold fieldsAux
    by_cases hc : isWs c = true
    · rw [if_pos hc]
      by_cases ha : acc = []
      · rw [if_pos ha, if_pos ha]
        have h := ih []
        rw [if_pos rfl] at h
        simp only [List.length_cons]
        omega
      · rw [if_neg ha, if_neg ha]
        have h := ih []
        rw [if_pos rfl] at h
        simp only [List.length_cons]
        omega
    · rw [if_neg hc]
      have h := ih (c :: acc)
      rw [if_neg (by simp)] at h
      simp only [List.length_cons]
      split <;> omega

theorem two_mul_fields_length_le (s : List Char) :
    2 * (fields s).length ≤ s.length + 1 := by
  have h := fieldsAux_two_mul_length_le s []
  rw [if_pos rfl] at h
  simpa [fields] using h

theorem fields_ltrim (s : List Char) : fields (ltrim s) = fields s := by
  induction s with
  | nil => rfl
  | cons c s' ih =>
    by_cases hc : isWs c = true
    · have h1 : ltrim (c :: s') = ltrim s' := by
        simp [ltrim, List.dropWhile_cons, hc]
      have h2 : fields (c :: s') = fields s' := by
        show fieldsAux (c :: s') [] = fieldsAux s' []
        simp [fieldsAux, hc]
      rw [h1, ih, h2]
    · simp [ltrim, List.dropWhile_cons, hc]

theorem fieldsAux_all_ws (w : List Char) (hw : ∀ c ∈ w, isWs c = true) :
    ∀ acc, fieldsAux w acc = if acc = [] then [] else [acc.reverse] := by
  induction w with
  | nil => intro acc; rfl
  | cons c w' ih =>
    intro acc
    have hc : isWs c = true := hw c (by simp)
    have h := ih (fun d hd => hw d (by simp [hd])) []
    rw [if_pos rfl] at h
    unfold fieldsAux
    rw [if_pos hc]
    by_cases ha : acc = []
    · rw [if_pos ha, if_pos ha, h]
    · rw [if_neg ha, if_neg ha, h]

theorem fieldsAux_append_all_ws (w : List Char) (hw : ∀ c ∈ w, isWs c = true) :
    ∀ s acc, fieldsAux (s ++ w) acc = fieldsAux s acc := by
  intro s
  induction s with
  | nil =>
    intro acc
    simp only [List.nil_append]
    rw [fieldsAux_all_ws w hw acc]
    rfl
  | cons c s' ih =>
    intro acc
    simp only [List.cons_append]
    unfold fieldsAux
    by_cases hc : isWs c = true
    · rw [if_pos hc, if_pos hc]
      by_cases ha : acc = []
      · rw [if_pos ha, if_pos ha, ih]
      · rw [if_neg ha, if_neg ha, ih]
    · rw [if_neg hc, if_neg hc, ih]

theorem rtrim_decomposition (s : List Char) :
    s = rtrim s ++ (s.reverse.takeWhile isWs).reverse := by
  have h2 : s = (s.reverse.takeWhile isWs ++ s.reverse.dropWhile isWs).reverse := by
    rw [List.takeWhile_append_dropWhile, List.reverse_reverse]
  nth_rewrite 1 [h2]
  rw [List.reverse_append]
  rfl

theorem fields_rtrim (s : List Char) : fields (rtrim s) = fields s := by
  have hws : ∀ c ∈ (s.reverse.takeWhile isWs).reverse, isWs c = true := by
    intro c hc
    rw [List.mem_reverse] at hc
    exact List.mem_takeWhile_imp hc
  have h := fieldsAux_append_all_ws _ hws (rtrim s) []
  unfold fields
  rw [← h, ← rtrim_decomposition s]

theorem fields_trim (s : List Char) : fields (trimChars s) = fields s := by
  unfold trimChars
  rw [fields_rtrim, fields_ltrim]

/-- Every maximal word contributes at least one character, every pair of
adjacent words at least one separator, and the trimmed string still
contains all of them. -/
theorem two_mul_fields_le_trim (s : List Char) :
    2 * (fields s).length ≤ (trimChars s).length + 1 := by
  have h := two_mul_fields_length_le (trimChars s)
  rw [fields_trim] at h
  exact h

theorem hasSub_head_mem (s : List Char) (c : Char) (t : List Char)
    (h : hasSub s (c :: t) = true) : c ∈ s := by
  induction s with
  | nil => simp [hasSub, prefixOf] at h
  | cons a s' ih =>
    unfold hasSub at h
    rw [Bool.or_eq_true] at h
    rcases h with hp | hr
    · unfold prefixOf at hp
      rw [Bool.and_eq_true, decide_eq_true_eq] at hp
      obtain ⟨hca, -⟩ := hp
      subst hca
      exact List.mem_cons_self _ _
    · exact List.mem_cons_of_mem _ (ih hr)

theorem mem_repWords (w : List Char) (c : Char) :
    ∀ n, c ∈ repWords n w → c = ' ' ∨ c ∈ w := by
  intro n
  induction n using Nat.strong_induction_on with
  | _ n ih =>
    rcases n with _ | (_ | m)
    · intro h
      simp [repWords] at h
    · intro h
      exact Or.inr h
    · intro h
      rw [show repWords (m + 2) w = w ++ ' ' :: repWords (m + 1) w from rfl] at h
      rcases List.mem_append.1 h with h1 | h2
      · exact Or.inr h1
      · rcases List.mem_cons.1 h2 with h3 | h4
        · exact Or.inl h3
        · exact ih (m + 1) (by omega) h4

theorem not_mem_word_space_repWords (v : List Char) (n : ℕ) (w : List Char)
    (c : Char) (hv : c ∉ v) (hsp : c ≠ ' ') (hw : c ∉ w) :
    c ∉ v ++ ' ' :: repWords n w := by
  intro hmem
  rcases List.mem_append.1 hmem with h1 | h2
  · exact hv h1
  · rcases List.mem_cons.1 h2 with h3 | h4
    · exact hsp h3
    · rcases mem_repWords w c n h4 with h5 | h6
      · exact hsp h5
      · exact hw h6

theorem contains_eq_false_of_not_mem {s : List Char} {c : Char} (h : c ∉ s) :
    s.contains c = false := by
  rw [Bool.eq_false_iff]
  intro hc
  rw [List.contains_iff_exists_mem_beq] at hc
  obtain ⟨b, hb, he⟩ := hc
  rw [beq_iff_eq] at he
  rw [he] at h
  exact h hb

theorem tooShortMsg_headD (a b c : ℕ) : (tooShortMsg a b c).headD ' ' = 'T' := rfl

theorem tooLongMsg_headD (a b c : ℕ) : (tooLongMsg a b c).headD ' ' = 'T' := rfl

theorem hasSub_tooShortMsg (a b c : ℕ) :
    hasSub (tooShortMsg a b c) "short".data = true := rfl

theorem hasSub_tooLongMsg (a b c : ℕ) :
    hasSub (tooLongMsg a b c) "long".data = true := rfl

/-- C5: with `expectedDurationMinutes = 5` (expected 1000 words, minimum
500, maximum 2000): a 400-word text is invalid with a reason containing
"short"; a 2200-word text is invalid with a reason containing "long"; a
1000-word text containing the literal substring "[pause]" is invalid with
the placeholder reason (which contains "placeholder"); a 1000-word on-topic
text is valid.  Rules are applied in source order with the first failing
rule winning: a 400-word text that also contains "[pause]" still reports
the word-count reason containing "short". -/
theorem validateChapterContent_rule_scenarios :
    ((validateChapterContent cShort 5 sampleTitle).isValid = false ∧
      hasSub ((validateChapterContent cShort 5 sampleTitle).reason.getD [])
        "short".data = true) ∧
    ((validateChapterContent cLong 5 sampleTitle).isValid = false ∧
      hasSub ((validateChapterContent cLong 5 sampleTitle).reason.getD [])
        "long".data = true) ∧
    (validateChapterContent cPause 5 sampleTitle
        = ⟨false, some placeholderMsg, none, none⟩ ∧
      hasSub placeholderMsg "placeholder".data = true) ∧
    (validateChapterContent cTopic 5 sampleTitle).isValid = true ∧
    hasSub ((validateChapterContent cShortPause 5 sampleTitle).reason.getD [])
      "short".data = true := by
  have hfA : (fields cShort).length = 400 := by
    rw [show cShort = repWords (399 + 1) ['a'] from rfl,
      fields_repWords ['a'] (by decide) (by decide) 399]
    rw [List.length_replicate]
  have hwcA : (splitWs cShort).length < 500 := by
    have h1 := splitWs_length_le_fields_add_two cShort
    omega
  have hvalA : validateChapterContent cShort 5 sampleTitle =
      ⟨false, some (tooShortMsg ((splitWs cShort).length) (5 * 200) (5 * 200 / 2)),
       none, none⟩ := by
    simp only [validateChapterContent]
    rw [if_pos (show (splitWs cShort).length < 5 * 200 / 2 by omega)]
  have hfB : (fields cLong).length = 2200 := by
    rw [show cLong = repWords (2199 + 1) ['a'] from rfl,
      fields_repWords ['a'] (by decide) (by decide) 2199]
    rw [List.length_replicate]
  have hwcB : 2000 < (splitWs cLong).length := by
    have h := fields_length_le_splitWs_length cLong
    omega
  have hvalB : validateChapterContent cLong 5 sampleTitle =
      ⟨false, some (tooLongMsg ((splitWs cLong).length) (5 * 200) (5 * 200 * 2)),
       none, none⟩ := by
    simp only [validateChapterContent]
    rw [if_neg (show ¬((splitWs cLong).length < 5 * 200 / 2) by omega),
      if_pos (show 5 * 200 * 2 < (splitWs cLong).length by omega)]
  have hfC : (fields cPause).length = 1000 := by
    rw [show cPause = "[pause]".data ++ ' ' :: repWords (998 + 1) ['a'] from rfl,
      fields_word_space "[pause]".data (repWords (998 + 1) ['a']) (by decide) (by decide),
      fields_repWords ['a'] (by decide) (by decide) 998]
    rw [List.length_cons, List.length_replicate]
  have hwcC1 : 1000 ≤ (splitWs cPause).length := by
    have h := fields_length_le_splitWs_length cPause
    omega
  have hwcC2 : (splitWs cPause).length ≤ 1002 := by
    have h := splitWs_length_le_fields_add_two cPause
    omega
  have htrC : 100 ≤ (trimChars cPause).length := by
    have h := two_mul_fields_le_trim cPause
    omega
  have hvalC : validateChapterContent cPause 5 sampleTitle =
      ⟨false, some placeholderMsg, none, none⟩ := by
    simp only [validateChapterContent]
    rw [if_neg (show ¬((splitWs cPause).length < 5 * 200 / 2) by omega),
      if_neg (show ¬(5 * 200 * 2 < (splitWs cPause).length) by omega),
      if_neg (show ¬((trimChars cPause).length < 100) by omega),
      if_pos (show (cPause.contains '[' || cPause.contains ']'
        || hasSub cPause "TODO".data) = true by
          rw [show cPause.contains '[' = true from rfl]
          rfl)]
  have hfD : (fields cTopic).length = 1000 := by
    rw [show cTopic = "meditation".data ++ ' ' :: repWords (998 + 1) ['a'] from rfl,
      fields_word_space "meditation".data (repWords (998 + 1) ['a']) (by decide) (by decide),
      fields_repWords ['a'] (by decide) (by decide) 998]
    rw [List.length_cons, List.length_replicate]
  have hwcD1 : 1000 ≤ (splitWs cTopic).length := by
    have h := fields_length_le_splitWs_length cTopic
    omega
  have hwcD2 : (splitWs cTopic).length ≤ 1002 := by
    have h := splitWs_length_le_fields_add_two cTopic
    omega
  have htrD : 100 ≤ (trimChars cTopic).length := by
    have h := two_mul_fields_le_trim cTopic
    omega
  have hnotl : ('[' : Char) ∉ cTopic :=
    not_mem_word_space_repWords "meditation".data 999 ['a'] '['
      (by decide) (by decide) (by decide)
  have hnotr : (']' : Char) ∉ cTopic :=
    not_mem_word_space_repWords "meditation".data 999 ['a'] ']'
      (by decide) (by decide) (by decide)
  have hnotT : ('T' : Char) ∉ cTopic :=
    not_mem_word_space_repWords "meditation".data 999 ['a'] 'T'
      (by decide) (by decide) (by decide)
  have htodo : hasSub cTopic "TODO".data = false := by
    rw [Bool.eq_false_iff]
    intro h
    exact hnotT (hasSub_head_mem cTopic 'T' "ODO".data h)
  have hg4 : (cTopic.contains '[' || cTopic.contains ']'
      || hasSub cTopic "TODO".data) = false := by
    rw [contains_eq_false_of_not_mem hnotl, contains_eq_false_of_not_mem hnotr, htodo]
    rfl
  have hmed : hasSub (List.map Char.toLower cTopic) "meditation".data = true := rfl
  have hbas : hasSub (List.map Char.toLower cTopic) "basics".data = false := by
    rw [Bool.eq_false_iff]
    intro h
    have hb := hasSub_head_mem _ 'b' "asics".data h
    rw [List.mem_map] at hb
    obtain ⟨x, hx, hxe⟩ := hb
    have hm : ∀ y ∈ "meditation".data, Char.toLower y ≠ 'b' := by decide
    have hspc : Char.toLower ' ' ≠ 'b' := by decide
    have hay : ∀ y ∈ (['a'] : List Char), Char.toLower y ≠ 'b' := by decide
    have hx' : x ∈ "meditation".data ++ ' ' :: repWords 999 ['a'] := hx
    rcases List.mem_append.1 hx' with h1 | h2
    · exact hm x h1 hxe
    · rcases List.mem_cons.1 h2 with h3 | h4
      · rw [h3] at hxe
        exact hspc hxe
      · rcases mem_repWords ['a'] x 999 h4 with h5 | h6
        · rw [h5] at hxe
          exact hspc hxe
        · exact hay x h6 hxe
  have hmem_fil : "meditation".data ∈ List.filter
      (fun kw => decide (3 < kw.length) && hasSub (List.map Char.toLower cTopic) kw)
      (splitWs (List.map Char.toLower sampleTitle)) := by
    rw [show splitWs (List.map Char.toLower sampleTitle)
        = ["meditation".data, "basics".data] from by decide]
    refine List.mem_filter.2 ⟨by simp, ?_⟩
    rw [Bool.and_eq_true]
    exact ⟨by decide, hmed⟩
  have hfil_ne : (List.filter
      (fun kw => decide (3 < kw.length) && hasSub (List.map Char.toLower cTopic) kw)
      (splitWs (List.map Char.toLower sampleTitle))).length ≠ 0 := by
    intro h0
    rw [List.length_eq_zero] at h0
    rw [h0] at hmem_fil
    simp at hmem_fil
  have hvalD : validateChapterContent cTopic 5 sampleTitle =
      ⟨true, none, some ((splitWs cTopic).length), some (5 * 200)⟩ := by
    simp only [validateChapterContent]
    rw [if_neg (show ¬((splitWs cTopic).length < 5 * 200 / 2) by omega),
      if_neg (show ¬(5 * 200 * 2 < (splitWs cTopic).length) by omega),
      if_neg (show ¬((trimChars cTopic).length < 100) by omega),
      if_neg (show ¬((cTopic.contains '[' || cTopic.contains ']'
        || hasSub cTopic "TODO".data) = true) by rw [hg4]; simp),
      if_neg (show ¬((List.filter (fun kw => decide (3 < kw.length)
          && hasSub (List.map Char.toLower cTopic) kw)
          (splitWs (List.map Char.toLower sampleTitle))).length = 0
        ∧ 1 < (splitWs (List.map Char.toLower sampleTitle)).length) from
        fun hand => hfil_ne hand.1)]
  have hfE : (fields cShortPause).length = 400 := by
    rw [show cShortPause = "[pause]".data ++ ' ' :: repWords (398 + 1) ['a'] from rfl,
      fields_word_space "[pause]".data (repWords (398 + 1) ['a']) (by decide) (by decide),
      fields_repWords ['a'] (by decide) (by decide) 398]
    rw [List.length_cons, List.length_replicate]
  have hwcE : (splitWs cShortPause).length < 500 := by
    have h := splitWs_length_le_fields_add_two cShortPause
    omega
  have hvalE : validateChapterContent cShortPause 5 sampleTitle =
      ⟨false, some (tooShortMsg ((splitWs cShortPause).length) (5 * 200) (5 * 200 / 2)),
       none, none⟩ := by
    simp only [validateChapterContent]
    rw [if_pos (show (splitWs cShortPause).length < 5 * 200 / 2 by omega)]
  refine ⟨⟨?_, ?_⟩, ⟨?_, ?_⟩, ⟨?_, ?_⟩, ?_, ?_⟩
  · rw [hvalA]
  · rw [hvalA]
    exact hasSub_tooShortMsg _ _ _
  · rw [hvalB]
  · rw [hvalB]
    exact hasSub_tooLongMsg _ _ _
  · exact hvalC
  · decide
  · rw [hvalD]
  · rw [hvalE]
    exact hasSub_tooShortMsg _ _ _

theorem retryGo_attemptsMade_le (res : ℕ → Except (List Char) (List Char))
    (valid : List Char → Bool) (mr : ℕ) :
    ∀ (attempts waits : List ℕ) (made : ℕ),
      (retryGo res valid mr attempts waits made).attemptsMade ≤
        made + attempts.length := by
  intro attempts
  induction attempts with
  | nil =>
    intro w m
    simp [retryGo]
  | cons a rest ih =>
    intro w m
    rw [retryGo]
    split
    · split
      · dsimp only
        simp only [List.length_cons]
        omega
      · split
        · dsimp only
          simp only [List.length_cons]
          omega
        · have h := ih (w ++ [1000 * a]) (m + 1)
          simp only [List.length_cons]
          omega
    · split
      · dsimp only
        simp only [List.length_cons]
        omega
      · have h := ih (w ++ [1000 * 2 ^ (a - 1)]) (m + 1)
        simp only [List.length_cons]
        omega

theorem retryGo_waits_shape (res : ℕ → Except (List Char) (List Char))
    (valid : List Char → Bool) (mr : ℕ) :
    ∀ (attempts waits : List ℕ) (made : ℕ),
      (∀ a ∈ attempts, a ≠ mr → 1000 * a = 1000 * 2 ^ (a - 1)) →
      ∃ k, (retryGo res valid mr attempts waits made).waits =
        waits ++ (attempts.take k).map (fun a => 1000 * 2 ^ (a - 1)) := by
  intro attempts
  induction attempts with
  | nil =>
    intro w m _
    exact ⟨0, by simp [retryGo]⟩
  | cons a rest ih =>
    intro w m hyp
    rw [retryGo]
    split
    · split
      · exact ⟨0, by simp⟩
      · split
        · exact ⟨0, by simp⟩
        · rename_i hmr
          obtain ⟨k, hk⟩ :=
            ih (w ++ [1000 * a]) (m + 1) (fun b hb hbmr => hyp b (by simp [hb]) hbmr)
          refine ⟨k + 1, ?_⟩
          rw [hk, hyp a (by simp) hmr]
          simp
    · split
      · exact ⟨0, by simp⟩
      · rename_i hmr
        obtain ⟨k, hk⟩ :=
          ih (w ++ [1000 * 2 ^ (a - 1)]) (m + 1) (fun b hb hbmr => hyp b (by simp [hb]) hbmr)
        refine ⟨k + 1, ?_⟩
        rw [hk]
        simp

/-- C6: with the default `maxRetries = 3`: when all three attempts return
text that fails validation, the third attempt's text is returned as a
success (no error is raised) after waiting 1 s and then 2 s between
attempts — the source's two backoff formulas `1000 * attempt` and
`1000 * 2 ^ (attempt - 1)` coincide on these waits.  In general at most 3
attempts are made and the wait sequence is a prefix of the doubling
sequence `[1000, 2000, 4000]` starting at one second.  The chapter's
statistics entry records exactly the validation verdict, so an invalid
final text is recorded as `isValid = false` rather than failing the run. -/
theorem generateChapterWithRetry_degraded_success
    (res : ℕ → Except (List Char) (List Char)) (valid : List Char → Bool)
    (c1 c2 c3 : List Char)
    (h1 : res 1 = .ok c1) (h2 : res 2 = .ok c2) (h3 : res 3 = .ok c3)
    (v1 : valid c1 = false) (v2 : valid c2 = false) (v3 : valid c3 = false) :
    generateChapterWithRetry res valid 3 = ⟨some (.ok c3), [1000, 2000], 3⟩ ∧
    (∀ (res' : ℕ → Except (List Char) (List Char)) (valid' : List Char → Bool),
      (generateChapterWithRetry res' valid' 3).attemptsMade ≤ 3 ∧
      (generateChapterWithRetry res' valid' 3).waits =
        List.take ((generateChapterWithRetry res' valid' 3).waits.length)
          [1000, 2000, 4000]) ∧
    (∀ (i d : ℕ) (title content : List Char),
      (chapterStatOf i content d title).isValid =
        (validateChapterContent content d title).isValid) := by
  refine ⟨?_, ?_, ?_⟩
  · show retryGo res valid 3 [1, 2, 3] [] 0 = ⟨some (.ok c3), [1000, 2000], 3⟩
    simp [retryGo, h1, h2, h3, v1, v2, v3]
  · intro res' valid'
    constructor
    · have h := retryGo_attemptsMade_le res' valid' 3 [1, 2, 3] [] 0
      simpa [generateChapterWithRetry] using h
    · have hside : ∀ a ∈ ([1, 2, 3] : List ℕ), a ≠ 3 →
          1000 * a = 1000 * 2 ^ (a - 1) := by
        intro a ha hne
        fin_cases ha
        · norm_num
        · norm_num
        · exact absurd rfl hne
      obtain ⟨k, hk⟩ := retryGo_waits_shape res' valid' 3 [1, 2, 3] [] 0 hside
      show (retryGo res' valid' 3 [1, 2, 3] [] 0).waits =
        List.take (retryGo res' valid' 3 [1, 2, 3] [] 0).waits.length [1000, 2000, 4000]
      rw [hk]
      rcases k with _ | _ | _ | k'
      · decide
      · decide
      · decide
      · rw [List.take_of_length_le (by simp)]
        decide
  · intro i d title content
    rfl

/-- Witness for `generateChapterWithRetry_degraded_success`: every attempt
returns the same invalid one-character text. -/
theorem generateChapterWithRetry_degraded_success_witness :
    generateChapterWithRetry (fun _ => .ok ['a']) (fun _ => false) 3 =
      ⟨some (.ok ['a']), [1000, 2000], 3⟩ ∧
    (∀ (res' : ℕ → Except (List Char) (List Char)) (valid' : List Char → Bool),
      (generateChapterWithRetry res' valid' 3).attemptsMade ≤ 3 ∧
      (generateChapterWithRetry res' valid' 3).waits =
        List.take ((generateChapterWithRetry res' valid' 3).waits.length)
          [1000, 2000, 4000]) ∧
    (∀ (i d : ℕ) (title content : List Char),
      (chapterStatOf i content d title).isValid =
        (validateChapterContent content d title).isValid) :=
  generateChapterWithRetry_degraded_success (fun _ => .ok ['a']) (fun _ => false)
    ['a'] ['a'] ['a'] rfl rfl rfl rfl rfl rfl

/-- C1 (code bug): a 5-chunk run whose synthesis fails on chunk index 2
keeps chunks 0 and 1's temp files on disk, writes no output file, and
propagates a `ReferenceError` — not the underlying synthesis error as the
claim (and the catch block's own cleanup comment) intend. -/
theorem generateLongAudioRun_midloop_failure :
    generateLongAudioRun 5 (fun i => decide (i < 2)) =
      ⟨.err .referenceErrorTempAudioFiles, [0, 1], false⟩ ∧
    (LongAudioResult.err JsError.referenceErrorTempAudioFiles) ≠
      .err (.synthesisError 2) := by decide

/-- C8 counterexample: a script of 5 spaces with `chunkSizeChars = 5` has
length ≤ `chunkSizeChars`, yet the run throws "Script file is empty" before
the path decision, so no single-call synthesis happens. -/
theorem audioRunPath_whitespace_script_errors :
    (List.replicate 5 ' ').length ≤ 5 ∧
    audioRunPath (List.replicate 5 ' ') 5 = .emptyScriptError := by
  decide

/-- C8 (amended): for every script whose trimmed content is nonempty, the
single-call path is taken exactly when the script length is at most
`chunkSizeChars`; at exactly `chunkSizeChars` characters the script is
synthesized in one call with no splitting, and at `chunkSizeChars + 1` the
splitter is invoked and the multi-chunk path runs. -/
theorem audioRunPath_boundary (script : List Char) (chunkSize : ℕ)
    (hs : trimChars script ≠ []) :
    (audioRunPath script chunkSize = .run false 1 ↔ script.length ≤ chunkSize) ∧
    (script.length = chunkSize → audioRunPath script chunkSize = .run false 1) ∧
    (script.length = chunkSize + 1 →
      audioRunPath script chunkSize =
        .run true (splitTextIntoChunks script chunkSize 200).length) := by
  unfold audioRunPath
  rw [if_neg hs]
  by_cases h : chunkSize < script.length
  · rw [if_pos h]
    refine ⟨⟨fun hh => by simp at hh, fun hh => by omega⟩, fun hh => by omega, fun _ => rfl⟩
  · rw [if_neg h]
    exact ⟨⟨fun _ => by omega, fun _ => rfl⟩, fun _ => rfl, fun hh => by omega⟩

/-- Witness for `audioRunPath_boundary`: the 6-character script `"Hello."`
with `chunkSizeChars = 6`. -/
theorem audioRunPath_boundary_witness :
    (audioRunPath "Hello.".data 6 = .run false 1 ↔ "Hello.".data.length ≤ 6) ∧
    ("Hello.".data.length = 6 → audioRunPath "Hello.".data 6 = .run false 1) ∧
    ("Hello.".data.length = 6 + 1 →
      audioRunPath "Hello.".data 6 =
        .run true (splitTextIntoChunks "Hello.".data 6 200).length) :=
  audioRunPath_boundary "Hello.".data 6 (by decide)

/-! ## C10: the 100-character rule is dead code for real durations -/
theorem tooShortMsg_ne_tooShort100Msg (a b c : ℕ) :
    tooShortMsg a b c ≠ tooShort100Msg := by
  intro h
  have h' : (tooShortMsg a b c).headD ' ' = tooShort100Msg.headD ' ' := by rw [h]
  rw [tooShortMsg_headD] at h'
  exact absurd h' (by decide)

theorem tooLongMsg_ne_tooShort100Msg (a b c : ℕ) :
    tooLongMsg a b c ≠ tooShort100Msg := by
  intro h
  have h' : (tooLongMsg a b c).headD ' ' = tooShort100Msg.headD ' ' := by rw [h]
  rw [tooLongMsg_headD] at h'
  exact absurd h' (by decide)

/-- C10: for every expectedDuration ≥ 1 (the only values
`generateLongScriptFromPreview` passes, since `Math.ceil(duration /
chapters.length) ≥ 1` for validated durations), the branch returning
`Content too short (less than 100 characters)` is unreachable: once the
minimum word-count rule passes, the word count is at least 100, and 100 or
more `split(/\s+/)` entries force a trimmed length greater than 100. -/
theorem validateChapterContent_100char_rule_unreachable
    (content chapterTitle : List Char) (d : ℕ) (hd : 1 ≤ d) :
    (validateChapterContent content d chapterTitle).reason ≠ some tooShort100Msg ∧
    (∀ s : List Char, 100 ≤ (splitWs s).length → 100 < (trimChars s).length) := by
  have hforce : ∀ s : List Char, 100 ≤ (splitWs s).length → 100 < (trimChars s).length := by
    intro s hs
    have h1 := splitWs_length_le_fields_add_two s
    have h2 := two_mul_fields_le_trim s
    omega
  refine ⟨?_, hforce⟩
  simp only [validateChapterContent]
  split_ifs with hg1 hg2 hg3 hg4 hg5
  · intro h
    exact tooShortMsg_ne_tooShort100Msg _ _ _ (Option.some.inj h)
  · intro h
    exact tooLongMsg_ne_tooShort100Msg _ _ _ (Option.some.inj h)
  · exfalso
    have hwc : 100 ≤ (splitWs content).length := by omega
    have h := hforce content hwc
    omega
  · intro h
    exact absurd (Option.some.inj h) (by decide)
  · intro h
    exact absurd (Option.some.inj h) (by decide)
  · simp

/-- Witness for `validateChapterContent_100char_rule_unreachable` at a tiny
content, title and duration 1. -/
theorem validateChapterContent_100char_rule_unreachable_witness :
    (validateChapterContent ['h', 'i'] 1 ['t']).reason ≠ some tooShort100Msg ∧
    (∀ s : List Char, 100 ≤ (splitWs s).length → 100 < (trimChars s).length) :=
  validateChapterContent_100char_rule_unreachable ['h', 'i'] ['t'] 1 (by decide)

/-! ## C4: chunker output shape -/
theorem sentencesF_mem_term :
    ∀ (fuel : ℕ) (s x : List Char), x ∈ sentencesF fuel s →
      ∃ c ∈ x, isTerm c = true := by
  intro fuel
  induction fuel with
  | zero =>
    intro s x h
    simp [sentencesF] at h
  | succ f ih =>
    intro s x h
    rw [sentencesF] at h
    split at h
    · simp at h
    · rename_i c s1 heq1
      split at h
      · simp at h
      · rename_i d r2 heq2
        rcases List.mem_cons.1 h with hx | hx
        · have h0 := List.head?_dropWhile_not notTerm s1
          rw [heq2] at h0
          have hd0 : notTerm d = false := h0
          have hd : isTerm d = true := by simpa [notTerm] using hd0
          refine ⟨d, ?_, hd⟩
          rw [hx]
          refine List.mem_append.2 (Or.inr ?_)
          rw [List.takeWhile_cons_of_pos hd]
          simp
        · exact ih _ x hx

theorem isTerm_not_ws (c : Char) (h : isTerm c = true) : isWs c = false := by
  simp only [isTerm, Bool.or_eq_true, decide_eq_true_eq] at h
  rcases h with (rfl | rfl) | rfl <;> decide

theorem trimChars_ne_nil_of_nonws (l : List Char) (c : Char) (hc : c ∈ l)
    (hws : isWs c = false) : trimChars l ≠ [] := by
  have key : ∀ m : List Char, c ∈ m → c ∈ m.dropWhile isWs := by
    intro m hm
    rw [← List.takeWhile_append_dropWhile isWs m] at hm
    rcases List.mem_append.1 hm with h | h
    · have ht := List.mem_takeWhile_imp h
      rw [hws] at ht
      simp at ht
    · exact h
  have h1 : c ∈ ltrim l := key l hc
  have h2 : c ∈ (ltrim l).reverse := List.mem_reverse.2 h1
  have h3 : c ∈ (ltrim l).reverse.dropWhile isWs := key _ h2
  have h4 : c ∈ trimChars l := List.mem_reverse.2 h3
  exact List.ne_nil_of_mem h4

theorem chunkStep_preserves (chunkSize overlapSize : ℕ)
    (st : List (List Char) × List Char) (x : List Char)
    (hx : ∃ c ∈ x, isWs c = false)
    (h1 : ∀ ch ∈ st.1, ch ≠ [])
    (h2 : st.2 = [] ∨ ∃ c ∈ st.2, isWs c = false) :
    (∀ ch ∈ (chunkStep chunkSize overlapSize st x).1, ch ≠ []) ∧
    (∃ c ∈ (chunkStep chunkSize overlapSize st x).2, isWs c = false) := by
  obtain ⟨cx, hcx, hcxws⟩ := hx
  unfold chunkStep
  split
  · rename_i hcond
    constructor
    · intro ch hch
      rcases List.mem_append.1 hch with h | h
      · exact h1 ch h
      · rw [List.mem_singleton] at h
        subst h
        rcases h2 with he | ⟨c, hc, hcws⟩
        · rw [he] at hcond
          simp at hcond
        · exact trimChars_ne_nil_of_nonws st.2 c hc hcws
    · refine ⟨cx, ?_, hcxws⟩
      exact List.mem_append.2 (Or.inr (List.mem_cons_of_mem _ hcx))
  · exact ⟨h1, cx, List.mem_append.2 (Or.inr hcx), hcxws⟩

theorem chunkFold_spec (chunkSize overlapSize : ℕ) :
    ∀ (sl : List (List Char)) (st : List (List Char) × List Char),
      (∀ x ∈ sl, ∃ c ∈ x, isWs c = false) →
      (∀ ch ∈ st.1, ch ≠ []) →
      (st.2 = [] ∨ ∃ c ∈ st.2, isWs c = false) →
      (∀ ch ∈ (List.foldl (chunkStep chunkSize overlapSize) st sl).1, ch ≠ []) ∧
      ((List.foldl (chunkStep chunkSize overlapSize) st sl).2 = [] ∨
        ∃ c ∈ (List.foldl (chunkStep chunkSize overlapSize) st sl).2, isWs c = false) ∧
      (sl ≠ [] →
        ∃ c ∈ (List.foldl (chunkStep chunkSize overlapSize) st sl).2, isWs c = false) := by
  intro sl
  induction sl with
  | nil =>
    intro st _ h1 h2
    exact ⟨h1, h2, fun h => absurd rfl h⟩
  | cons x rest ih =>
    intro st hx h1 h2
    obtain ⟨hp1, hp2⟩ :=
      chunkStep_preserves chunkSize overlapSize st x (hx x (by simp)) h1 h2
    simp only [List.foldl_cons]
    have hrec := ih (chunkStep chunkSize overlapSize st x)
      (fun y hy => hx y (by simp [hy])) hp1 (Or.inr hp2)
    refine ⟨hrec.1, hrec.2.1, fun _ => ?_⟩
    cases rest with
    | nil => exact hp2
    | cons r rs => exact hrec.2.2 (by simp)

/-- C4 counterexample: a single-space text is nonempty yet produces no
chunks at all, and for `"A. B"` the single produced chunk drops the
trailing `" B"` (no terminal punctuation), so concatenating the chunks
(there is no overlap to remove from a single chunk) does not reconstruct
the original text. -/
theorem splitTextIntoChunks_counterexample :
    splitTextIntoChunks [' '] 1 200 = [] ∧
    splitTextIntoChunks "A. B".data 10 200 = ["A.".data] ∧
    "A.".data ≠ "A. B".data := by decide

/-- C4 (amended): for every text whose trimmed form is nonempty and every
`maxChunkChars ≥ 1`, `splitTextIntoChunks` (with the source's default
200-character overlap) returns a nonempty list of chunks, each of them
nonempty.  Concatenating the chunks does not in general reconstruct the
input — trailing text with no terminal punctuation is dropped and chunk
boundaries are trimmed (`splitTextIntoChunks_counterexample`). -/
theorem splitTextIntoChunks_nonempty (text : List Char) (chunkSize : ℕ)
    (_hcs : 1 ≤ chunkSize) (ht : trimChars text ≠ []) :
    splitTextIntoChunks text chunkSize 200 ≠ [] ∧
    ∀ ch ∈ splitTextIntoChunks text chunkSize 200, ch ≠ [] := by
  simp only [splitTextIntoChunks]
  rcases hsr : sentencesRaw text with _ | ⟨s0, srest⟩
  · have hsent : sentences text = [text] := by
      unfold sentences
      rw [hsr]
    have hstep : chunkStep chunkSize 200 ([], []) text = ([], text) := by
      simp [chunkStep]
    rw [hsent]
    simp only [List.foldl_cons, List.foldl_nil, hstep]
    rw [if_neg ht]
    constructor
    · simp
    · intro ch hch
      simp only [List.nil_append, List.mem_singleton] at hch
      subst hch
      exact ht
  · have hsent : sentences text = s0 :: srest := by
      unfold sentences
      rw [hsr]
    have hterm : ∀ x ∈ s0 :: srest, ∃ c ∈ x, isWs c = false := by
      intro x hx
      have hx' : x ∈ sentencesF (text.length + 1) text := by
        rw [show sentencesF (text.length + 1) text = sentencesRaw text from rfl, hsr]
        exact hx
      obtain ⟨c, hc, hct⟩ := sentencesF_mem_term (text.length + 1) text x hx'
      exact ⟨c, hc, isTerm_not_ws c hct⟩
    rw [hsent]
    obtain ⟨hA, hB, hC⟩ :=
      chunkFold_spec chunkSize 200 (s0 :: srest) ([], []) hterm (by simp) (Or.inl rfl)
    obtain ⟨c, hc, hcws⟩ := hC (by simp)
    have hpush :
        trimChars (List.foldl (chunkStep chunkSize 200) ([], []) (s0 :: srest)).2 ≠ [] :=
      trimChars_ne_nil_of_nonws _ c hc hcws
    rw [if_neg hpush]
    constructor
    · simp
    · intro ch hch
      rcases List.mem_append.1 hch with h | h
      · exact hA ch h
      · rw [List.mem_singleton] at h
        subst h
        exact hpush

/-- Witness for `splitTextIntoChunks_nonempty` on the text `"Hi."` with
`maxChunkChars = 1`. -/
theorem splitTextIntoChunks_nonempty_witness :
    splitTextIntoChunks "Hi.".data 1 200 ≠ [] ∧
    ∀ ch ∈ splitTextIntoChunks "Hi.".data 1 200, ch ≠ [] :=
  splitTextIntoChunks_nonempty "Hi.".data 1 (by decide) (by decide)

end FullAI

